import Mathlib

/-!
# dream-grid: verification of the layout-and-virtualization core

Shallow embedding of the dream-grid masonry layout engine.  Geometry is
modelled over `ℚ` (exact arithmetic standing in for the JS numbers the
code manipulates); timestamps are `ℤ` milliseconds.

The six pure utility functions (`calculateDimensions`, `calculatePositions`,
`filterVisibleItems`, `filterValidItems`, `getScrollPosition`,
`boundsChangedSignificantly`) are exported from `src/utils`, whose source
file is not part of the provided tree — only its unit tests
(`src/__tests__/utils.test.ts`) and callers are.  Those definitions are
therefore modelled from the spec (each carries a doc comment saying so),
constrained by the concrete expectations of the unit tests.  The
infinite-scroll hook (`src/hooks/use-infinite-scroll.ts`) is present and is
embedded directly from its source.
-/

set_option autoImplicit false

namespace DreamGrid

/-- An input item (`GridItem` in `src/types`): a record with an identifier
and optional intrinsic `width`, `height`, `aspectRatio`.  The identifier is
modelled as `Option String` so that the missing/null ids handled by
`filterValidItems` are representable; absent slots of the raw item array
(null/undefined entries) are modelled as `Option GridItem` at the use
site. -/
structure GridItem where
  id : Option String := none
  width : Option ℚ := none
  height : Option ℚ := none
  aspectRatio : Option ℚ := none
deriving Repr, DecidableEq, Inhabited

/-- Column geometry (`Dimensions` in `src/types`). -/
structure Dimensions where
  columnCount : ℕ
  columnWidth : ℚ
deriving Repr, DecidableEq

/-- A packed item position (`Position` in `src/types`). -/
structure Position where
  column : ℕ
  top : ℚ
  left : ℚ
  height : ℚ
deriving Repr, DecidableEq, Inhabited

/-- A content-space visibility window (`ViewBounds` in `src/types`). -/
structure ViewBounds where
  top : ℚ
  bottom : ℚ
deriving Repr, DecidableEq

/-- A rendering projection of a visible item (`VisibleItem` in
`src/types`): the item, its position, its index in the valid-item list and
the serialized CSS transform. -/
structure VisibleItem where
  item : GridItem
  pos : Position
  index : ℕ
  transform : String
deriving Repr, DecidableEq

/-- Gutter between adjacent columns, in pixels (README: "1.5px gutters"). -/
def GUTTER_SIZE : ℚ := 3 / 2

/-- Nominal minimum column width, in pixels (README: "minimum width of
240px"). -/
def MIN_COLUMN_WIDTH : ℚ := 240

/-! ## Dimension Resolver (`calculateDimensions`) -/

/-- Column width obtained by splitting `containerWidth` into `c` columns
with `c - 1` inter-column gutters (spec §4.1: gutters sit between columns
only, their total is subtracted before dividing). -/
def columnWidthFor (containerWidth : ℚ) (c : ℕ) : ℚ :=
  (containerWidth - GUTTER_SIZE * ((c : ℚ) - 1)) / (c : ℚ)

/-- Modelled from the spec (`src/utils` is missing from the tree): the
largest column count `c` in `[2, maxColumnCount]` whose resulting column
width is at least `MIN_COLUMN_WIDTH`, searched downward from
`maxColumnCount`; when no such `c ≥ 2` exists the count is clamped to
exactly 2 (spec §4.1's minimum-columns floor). -/
def bestColumnCount (containerWidth : ℚ) : ℕ → ℕ
  | 0 => 2
  | 1 => 2
  | (n + 2) =>
      if MIN_COLUMN_WIDTH ≤ columnWidthFor containerWidth (n + 2) then n + 2
      else bestColumnCount containerWidth (n + 1)

/-- Modelled from the spec (`src/utils` is missing from the tree):
`calculateDimensions containerWidth maxColumnCount` yields `none` for a
non-positive container width, and otherwise the clamped best column count
together with the corresponding column width (spec §4.1). -/
def calculateDimensions (containerWidth : ℚ) (maxColumnCount : ℕ) :
    Option Dimensions :=
  if containerWidth ≤ 0 then none
  else
    let c := bestColumnCount containerWidth maxColumnCount
    some ⟨c, columnWidthFor containerWidth c⟩

/-! ## Masonry Packer (`calculatePositions`) -/

/-- Modelled from the spec (`src/utils` is missing from the tree): the
rendered height of one item (spec §4.2 step 2) — aspect-ratio preserving
when intrinsic `width` and `height` are both present, else derived from
`aspectRatio`, else a square of side `columnWidth`. -/
def renderedHeight (columnWidth : ℚ) (item : GridItem) : ℚ :=
  match item.width, item.height with
  | some w, some h => columnWidth * (h / w)
  | _, _ =>
      match item.aspectRatio with
      | some ar => columnWidth / ar
      | none => columnWidth

/-- Index of the first minimum of a list of column heights: the column the
packer selects (spec §4.2 step 3 — minimum accumulated height, ties broken
by lowest column index).  Returns 0 on the empty list. -/
def minColumnIndex : List ℚ → ℕ
  | [] => 0
  | [_] => 0
  | x :: y :: ys =>
      if x ≤ (y :: ys).getD (minColumnIndex (y :: ys)) 0 then 0
      else minColumnIndex (y :: ys) + 1

/-- Modelled from the spec (`src/utils` is missing from the tree): the
packing loop of `calculatePositions` (spec §4.2 steps 2-4).  Threads the
column-height accumulator through the item list, emitting one `Position`
per item: the first shortest column receives the item, `top` is that
column's accumulated height before placement, `left` is
`column * (columnWidth + gutter)`, and the item's rendered height is added
to the column. -/
def packLoop (dims : Dimensions) : List ℚ → List GridItem → List Position × List ℚ
  | heights, [] => ([], heights)
  | heights, it :: rest =>
      let col := minColumnIndex heights
      let top := heights.getD col 0
      let h := renderedHeight dims.columnWidth it
      let r := packLoop dims (heights.set col (top + h)) rest
      (⟨col, top, (col : ℚ) * (dims.columnWidth + GUTTER_SIZE), h⟩ :: r.1, r.2)

/-- Maximum of a list of heights (0 on the empty list): the value of
`max(accumulator)` in spec §4.2 step 5. -/
def listMax : List ℚ → ℚ
  | [] => 0
  | [x] => x
  | x :: y :: ys => max x (listMax (y :: ys))

/-- Result record of `calculatePositions`. -/
structure PositionsResult where
  positions : List Position
  totalHeight : ℚ
deriving Repr, DecidableEq

/-- Modelled from the spec (`src/utils` is missing from the tree):
`calculatePositions` runs the greedy shortest-column packing over the items
starting from an all-zero accumulator of length `columnCount`, and returns
the index-aligned positions together with `totalHeight = max(accumulator)`
(spec §4.2). -/
def calculatePositions (items : List GridItem) (dims : Dimensions) :
    PositionsResult :=
  let r := packLoop dims (List.replicate dims.columnCount 0) items
  ⟨r.1, listMax r.2⟩

/-! ## Viewport Filter (`filterVisibleItems`) -/

/-- Modelled from the spec and the unit test at
`src/__tests__/utils.test.ts:128`: the serialized GPU translation string
for an item at `(left, top)`. -/
def mkTransform (left top : ℚ) : String :=
  "translate3d(" ++ toString left ++ "px," ++ toString top ++ "px,0)"

/-- The visibility test of spec §4.3: the item's vertical extent overlaps
the bounds. -/
def overlaps (p : Position) (bounds : ViewBounds) : Prop :=
  p.top < bounds.bottom ∧ p.top + p.height > bounds.top

instance (p : Position) (bounds : ViewBounds) : Decidable (overlaps p bounds) :=
  inferInstanceAs (Decidable (And _ _))

/-- Index-tracking loop of `filterVisibleItems`: walks the item and
position lists in lockstep, keeping the entries whose positions overlap
the bounds. -/
def visibleLoop (bounds : ViewBounds) : ℕ → List GridItem → List Position → List VisibleItem
  | _, [], _ => []
  | _, _ :: _, [] => []
  | i, it :: its, p :: ps =>
      if overlaps p bounds then
        ⟨it, p, i, mkTransform p.left p.top⟩ :: visibleLoop bounds (i + 1) its ps
      else visibleLoop bounds (i + 1) its ps

/-- Modelled from the spec (`src/utils` is missing from the tree):
`filterVisibleItems` keeps, in input order, the items whose vertical
extent overlaps the view bounds, each annotated with its index and
transform (spec §4.3). -/
def filterVisibleItems (items : List GridItem) (positions : List Position)
    (bounds : ViewBounds) : List VisibleItem :=
  visibleLoop bounds 0 items positions

/-! ## Item validity filter (`filterValidItems`) -/

/-- Validity of one raw slot: the slot is present and its item carries a
non-missing, non-null id (spec §3). -/
def isValidItem : Option GridItem → Bool
  | none => false
  | some it => it.id.isSome

/-- Modelled from the spec (`src/utils` is missing from the tree):
`filterValidItems` drops absent slots and items without a valid id, keeping
the valid items in their original relative order (spec §3, §7). -/
def filterValidItems (items : List (Option GridItem)) : List GridItem :=
  items.filterMap fun o => if isValidItem o then o else none

/-! ## Scroll Bounds Resolver (`getScrollPosition`) -/

/-- Modelled from the spec (`src/utils` is missing from the tree):
`getScrollPosition` reads the container's scroll offset and client size,
subtracts the content offset, and expands by the overscan margin on both
sides (spec §4.5). -/
def getScrollPosition (scrollTop clientHeight contentOffset overscan : ℚ) :
    ViewBounds :=
  ⟨scrollTop - contentOffset - overscan,
   scrollTop - contentOffset + clientHeight + overscan⟩

/-! ## Change Gate (`boundsChangedSignificantly`) -/

/-- Modelled from the spec (`src/utils` is missing from the tree):
`boundsChangedSignificantly` is true when there are no previous bounds, or
when either edge moved by strictly more than the hysteresis (spec
§4.4). -/
def boundsChangedSignificantly (prev : Option ViewBounds) (next : ViewBounds)
    (hysteresis : ℚ) : Bool :=
  match prev with
  | none => true
  | some p =>
      decide (|next.top - p.top| > hysteresis) ||
      decide (|next.bottom - p.bottom| > hysteresis)

/-- The column-height accumulator at the moment item `i` is placed: the
state of the packing loop after the first `i` items (spec §4.2).  At
`i = items.length` this is the final accumulator. -/
def heightsBefore (items : List GridItem) (dims : Dimensions) (i : ℕ) : List ℚ :=
  (packLoop dims (List.replicate dims.columnCount 0) (items.take i)).2

/-! ## Pagination Trigger (`src/hooks/use-infinite-scroll.ts`) -/

/-- The triple read by `getScrollData` inside `handleScroll`
(`use-infinite-scroll.ts:38-61`): scroll offset, scroll extent and client
extent of the tracked container (or of the window). -/
structure ScrollData where
  scrollPos : ℚ
  scrollSize : ℚ
  clientSize : ℚ
deriving Repr, DecidableEq

/-- The scroll reading produced when the tracked container is absent in
non-window mode (`use-infinite-scroll.ts:48`): all three fields zero. -/
def missingContainerScrollData : ScrollData := ⟨0, 0, 0⟩

/-- One invocation of `handleScroll` (`use-infinite-scroll.ts:63-74`),
given the scroll reading, the caller-supplied flags, the configuration and
the current time and stored last-fetch time.  Returns whether
`fetchNextPage` was invoked, together with the new value of
`lastFetchTimeRef`. -/
def handleScrollStep (threshold : ℚ) (minDelayMs : ℤ)
    (hasNextPage isFetchingNextPage : Bool) (sd : ScrollData)
    (now lastFetchTime : ℤ) : Bool × ℤ :=
  let distanceFromEnd := sd.scrollSize - sd.scrollPos - sd.clientSize
  if distanceFromEnd > threshold ∨ hasNextPage = false ∨ isFetchingNextPage = true then
    (false, lastFetchTime)
  else if now - lastFetchTime > minDelayMs then (true, now)
  else (false, lastFetchTime)

/-- A scroll signal as seen by `handleScroll`: the scroll reading and flag
values current when the signal fires, plus the value of `Date.now()` at
that moment. -/
structure ScrollSignal where
  sd : ScrollData
  hasNextPage : Bool
  isFetchingNextPage : Bool
  now : ℤ
deriving Repr, DecidableEq

/-- Runs `handleScroll` over a sequence of scroll signals, threading the
`lastFetchTimeRef` state, and collects the times at which the fetch
callback fired. -/
def runSignals (threshold : ℚ) (minDelayMs : ℤ) :
    ℤ → List ScrollSignal → List ℤ
  | _, [] => []
  | last, s :: rest =>
      let r := handleScrollStep threshold minDelayMs s.hasNextPage
        s.isFetchingNextPage s.sd s.now last
      if r.1 then s.now :: runSignals threshold minDelayMs r.2 rest
      else runSignals threshold minDelayMs r.2 rest

/-- The status flag computed at `use-infinite-scroll.ts:123`:
`showLoadMoreButton = hasNextPage && !isFetchingNextPage`.  The hook's
other parameters are listed to reflect its full configuration surface; the
flag's computation reads none of them. -/
def showLoadMoreButton (_enabled : Bool) (_threshold : ℚ) (_minDelayMs : ℤ)
    (hasNextPage isFetchingNextPage : Bool) (_sd : ScrollData)
    (_now _lastFetchTime : ℤ) : Bool :=
  hasNextPage && !isFetchingNextPage

/-! ## Lemmas about `minColumnIndex` -/

theorem minColumnIndex_lt_length : ∀ (l : List ℚ), l ≠ [] → minColumnIndex l < l.length := by
  intro l
  induction l with
  | nil => intro h; exact absurd rfl h
  | cons x t IH =>
    intro _
    cases t with
    | nil => simp [minColumnIndex]
    | cons y ys =>
      rw [minColumnIndex]
      split
      · simp
      · have h := IH (by simp)
        simpa using Nat.succ_lt_succ h

theorem minColumnIndex_le_getD : ∀ (l : List ℚ) (j : ℕ), j < l.length →
    l.getD (minColumnIndex l) 0 ≤ l.getD j 0 := by
  intro l
  induction l with
  | nil => intro j hj; simp at hj
  | cons x t IH =>
    intro j hj
    cases t with
    | nil =>
      cases j with
      | zero => simp [minColumnIndex]
      | succ k => simp at hj
    | cons y ys =>
      rw [minColumnIndex]
      split
      · rename_i hx
        cases j with
        | zero => simp
        | succ k =>
          have hk : k < (y :: ys).length := by simpa using hj
          simp only [List.getD_cons_zero, List.getD_cons_succ]
          exact le_trans hx (IH k hk)
      · rename_i hx
        cases j with
        | zero =>
          simp only [List.getD_cons_succ, List.getD_cons_zero]
          exact le_of_lt (lt_of_not_le hx)
        | succ k =>
          have hk : k < (y :: ys).length := by simpa using hj
          simp only [List.getD_cons_succ]
          exact IH k hk

theorem minColumnIndex_strict : ∀ (l : List ℚ) (j : ℕ), j < minColumnIndex l →
    l.getD (minColumnIndex l) 0 < l.getD j 0 := by
  intro l
  induction l with
  | nil => intro j hj; simp [minColumnIndex] at hj
  | cons x t IH =>
    intro j hj
    cases t with
    | nil => simp [minColumnIndex] at hj
    | cons y ys =>
      rw [minColumnIndex] at hj ⊢
      split at hj
      · exact absurd hj (Nat.not_lt_zero j)
      · rename_i hx
        split
        · rename_i hx'
          exact absurd hx' hx
        · cases j with
          | zero =>
            simp only [List.getD_cons_succ, List.getD_cons_zero]
            exact lt_of_not_le hx
          | succ k =>
            have hk : k < minColumnIndex (y :: ys) := Nat.lt_of_succ_lt_succ hj
            simp only [List.getD_cons_succ]
            exact IH k hk

/-! ## Lemmas about `listMax` -/

theorem listMax_mem : ∀ (l : List ℚ), l ≠ [] → listMax l ∈ l := by
  intro l
  induction l with
  | nil => intro h; exact absurd rfl h
  | cons x t IH =>
    intro _
    cases t with
    | nil => simp [listMax]
    | cons y ys =>
      rw [listMax]
      rcases max_choice x (listMax (y :: ys)) with h | h
      · rw [h]; exact List.mem_cons_self x _
      · rw [h]; exact List.mem_cons_of_mem x (IH (by simp))

theorem le_listMax : ∀ (l : List ℚ) (a : ℚ), a ∈ l → a ≤ listMax l := by
  intro l
  induction l with
  | nil => intro a ha; simp at ha
  | cons x t IH =>
    intro a ha
    cases t with
    | nil =>
      rw [List.mem_singleton] at ha
      rw [ha, listMax]
    | cons y ys =>
      rw [listMax]
      rcases List.mem_cons.mp ha with h | h
      · rw [h]; exact le_max_left _ _
      · exact le_trans (IH a h) (le_max_right _ _)

/-! ## Lemmas about `packLoop` -/

theorem packLoop_length (dims : Dimensions) :
    ∀ (items : List GridItem) (heights : List ℚ),
      (packLoop dims heights items).1.length = items.length := by
  intro items
  induction items with
  | nil => intro heights; rfl
  | cons it rest IH => intro heights; simp [packLoop, IH]

theorem packLoop_heights_length (dims : Dimensions) :
    ∀ (items : List GridItem) (heights : List ℚ),
      (packLoop dims heights items).2.length = heights.length := by
  intro items
  induction items with
  | nil => intro heights; rfl
  | cons it rest IH =>
    intro heights
    rw [packLoop]
    rw [IH]
    exact List.length_set heights _ _

theorem packLoop_get (dims : Dimensions) :
    ∀ (items : List GridItem) (heights : List ℚ) (i : ℕ), i < items.length →
      (packLoop dims heights items).1.getD i default =
        { column := minColumnIndex ((packLoop dims heights (items.take i)).2),
          top := ((packLoop dims heights (items.take i)).2).getD
            (minColumnIndex ((packLoop dims heights (items.take i)).2)) 0,
          left := (minColumnIndex ((packLoop dims heights (items.take i)).2) : ℚ) *
            (dims.columnWidth + GUTTER_SIZE),
          height := renderedHeight dims.columnWidth (items.getD i default) } := by
  intro items
  induction items with
  | nil => intro heights i hi; simp at hi
  | cons it rest IH =>
    intro heights i hi
    cases i with
    | zero => simp [packLoop]
    | succ k =>
      have hk : k < rest.length := by simpa using hi
      simp only [packLoop, List.take_succ_cons, List.getD_cons_succ]
      exact IH _ k hk

/-! ## Lemmas about `visibleLoop` -/

theorem visibleLoop_mem_iff (bounds : ViewBounds) :
    ∀ (its : List GridItem) (ps : List Position) (n : ℕ) (v : VisibleItem),
      its.length = ps.length →
      (v ∈ visibleLoop bounds n its ps ↔
        ∃ k, k < ps.length ∧ v.index = n + k ∧ v.item = its.getD k default ∧
          v.pos = ps.getD k default ∧
          v.transform = mkTransform (ps.getD k default).left (ps.getD k default).top ∧
          overlaps (ps.getD k default) bounds) := by
  intro its
  induction its with
  | nil =>
    intro ps n v hlen
    have hps : ps = [] := List.eq_nil_of_length_eq_zero hlen.symm
    subst hps
    simp [visibleLoop]
  | cons it its' IH =>
    intro ps n v hlen
    cases ps with
    | nil => simp at hlen
    | cons p ps' =>
      have hlen' : its'.length = ps'.length := by simpa using hlen
      rw [visibleLoop]
      split
      · rename_i hov
        constructor
        · intro hv
          rcases List.mem_cons.mp hv with h | h
          · exact ⟨0, by simp, by simp [h], by simp [h], by simp [h], by simp [h],
              by simpa using hov⟩
          · rcases (IH ps' (n + 1) v hlen').mp h with ⟨k, hk, hidx, hitem, hpos, htr, ho⟩
            exact ⟨k + 1, by simpa using Nat.succ_lt_succ hk, by omega,
              by simpa using hitem, by simpa using hpos, by simpa using htr,
              by simpa using ho⟩
        · rintro ⟨k, hk, hidx, hitem, hpos, htr, ho⟩
          cases k with
          | zero =>
            simp only [List.getD_cons_zero] at hitem hpos htr
            have hidx' : v.index = n := by omega
            have hv : v = ⟨it, p, n, mkTransform p.left p.top⟩ := by
              cases v
              simp only [VisibleItem.mk.injEq]
              exact ⟨hitem, hpos, hidx', htr⟩
            rw [hv]
            exact List.mem_cons_self _ _
          | succ k' =>
            refine List.mem_cons_of_mem _ ?_
            refine (IH ps' (n + 1) v hlen').mpr ⟨k', by simpa using hk, by omega,
              by simpa using hitem, by simpa using hpos, by simpa using htr,
              by simpa using ho⟩
      · rename_i hov
        rw [IH ps' (n + 1) v hlen']
        constructor
        · rintro ⟨k, hk, hidx, hitem, hpos, htr, ho⟩
          exact ⟨k + 1, by simpa using Nat.succ_lt_succ hk, by omega,
            by simpa using hitem, by simpa using hpos, by simpa using htr,
            by simpa using ho⟩
        · rintro ⟨k, hk, hidx, hitem, hpos, htr, ho⟩
          cases k with
          | zero =>
            simp only [List.getD_cons_zero] at ho
            exact absurd ho hov
          | succ k' =>
            exact ⟨k', by simpa using hk, by omega, by simpa using hitem,
              by simpa using hpos, by simpa using htr, by simpa using ho⟩

theorem visibleLoop_index_ge (bounds : ViewBounds) :
    ∀ (its : List GridItem) (ps : List Position) (n : ℕ) (v : VisibleItem),
      v ∈ visibleLoop bounds n its ps → n ≤ v.index := by
  intro its
  induction its with
  | nil => intro ps n v hv; simp [visibleLoop] at hv
  | cons it its' IH =>
    intro ps n v hv
    cases ps with
    | nil => simp [visibleLoop] at hv
    | cons p ps' =>
      rw [visibleLoop] at hv
      split at hv
      · rcases List.mem_cons.mp hv with h | h
        · rw [h]
        · exact le_of_lt (lt_of_lt_of_le (Nat.lt_succ_self n) (IH ps' (n + 1) v h))
      · exact le_of_lt (lt_of_lt_of_le (Nat.lt_succ_self n) (IH ps' (n + 1) v hv))

theorem visibleLoop_pairwise (bounds : ViewBounds) :
    ∀ (its : List GridItem) (ps : List Position) (n : ℕ),
      (visibleLoop bounds n its ps).Pairwise (fun a b => a.index < b.index) := by
  intro its
  induction its with
  | nil => intro ps n; simp [visibleLoop]
  | cons it its' IH =>
    intro ps n
    cases ps with
    | nil => simp [visibleLoop]
    | cons p ps' =>
      rw [visibleLoop]
      split
      · refine List.Pairwise.cons ?_ (IH ps' (n + 1))
        intro v hv
        have := visibleLoop_index_ge bounds its' ps' (n + 1) v hv
        simpa using lt_of_lt_of_le (Nat.lt_succ_self n) this
      · exact IH ps' (n + 1)

/-! ## Lemmas about `filterValidItems` -/

theorem filterValidItems_sublist (xs : List (Option GridItem)) :
    List.Sublist ((filterValidItems xs).map some) xs := by
  induction xs with
  | nil => simp [filterValidItems]
  | cons o t IH =>
    rw [filterValidItems, List.filterMap_cons]
    by_cases h : isValidItem o = true
    · cases o with
      | none => simp [isValidItem] at h
      | some it =>
        simp only [if_pos h]
        exact List.Sublist.cons₂ (some it) IH
    · have : (if isValidItem o then o else none) = none := by
        rw [if_neg h]
      rw [this]
      exact List.Sublist.cons o IH

theorem mem_filterValidItems (xs : List (Option GridItem)) (it : GridItem) :
    it ∈ filterValidItems xs ↔ (some it ∈ xs ∧ it.id.isSome = true) := by
  rw [filterValidItems, List.mem_filterMap]
  constructor
  · rintro ⟨o, ho, heq⟩
    by_cases h : isValidItem o = true
    · rw [if_pos h] at heq
      subst heq
      exact ⟨ho, by simpa [isValidItem] using h⟩
    · rw [if_neg h] at heq
      exact absurd heq (by simp)
  · rintro ⟨ho, hid⟩
    exact ⟨some it, ho, by simp [isValidItem, hid]⟩

theorem filterValidItems_all_valid (xs : List (Option GridItem)) :
    ∀ it ∈ filterValidItems xs, it.id.isSome = true := by
  intro it hit
  exact ((mem_filterValidItems xs it).mp hit).2

theorem filterValidItems_map_some (ys : List GridItem)
    (hys : ∀ it ∈ ys, it.id.isSome = true) :
    filterValidItems (ys.map some) = ys := by
  induction ys with
  | nil => rfl
  | cons it t IH =>
    have hit : isValidItem (some it) = true := by
      simpa [isValidItem] using hys it (List.mem_cons_self it t)
    have IH' : filterValidItems (t.map some) = t :=
      IH fun a ha => hys a (List.mem_cons_of_mem it ha)
    calc filterValidItems ((it :: t).map some)
        = it :: filterValidItems (t.map some) := by
          rw [List.map_cons, filterValidItems, List.filterMap_cons, if_pos hit]
          rfl
      _ = it :: t := by rw [IH']

/-! ## Lemmas about `bestColumnCount` -/

theorem bestColumnCount_ge_two (cw : ℚ) : ∀ (n : ℕ), 2 ≤ bestColumnCount cw n := by
  intro n
  induction n with
  | zero => exact le_refl 2
  | succ m IH =>
    cases m with
    | zero => exact le_refl 2
    | succ m' =>
      rw [bestColumnCount]
      split
      · omega
      · exact IH

theorem bestColumnCount_le (cw : ℚ) : ∀ (n : ℕ), 2 ≤ n → bestColumnCount cw n ≤ n := by
  intro n
  induction n with
  | zero => intro h; omega
  | succ m IH =>
    intro _
    cases m with
    | zero => omega
    | succ m' =>
      rw [bestColumnCount]
      split
      · exact le_refl _
      · cases m' with
        | zero => exact le_refl 2 |>.trans (by omega)
        | succ m'' => exact le_trans (IH (by omega)) (by omega)

theorem bestColumnCount_spec (cw : ℚ) : ∀ (n : ℕ),
    bestColumnCount cw n = 2 ∨
      MIN_COLUMN_WIDTH ≤ columnWidthFor cw (bestColumnCount cw n) := by
  intro n
  induction n with
  | zero => exact Or.inl rfl
  | succ m IH =>
    cases m with
    | zero => exact Or.inl rfl
    | succ m' =>
      rw [bestColumnCount]
      split
      · rename_i h
        exact Or.inr h
      · exact IH

/-! ## Lemmas about `handleScrollStep` and `runSignals` -/

theorem handleScrollStep_fired {threshold : ℚ} {minDelayMs : ℤ}
    {hasNextPage isFetchingNextPage : Bool} {sd : ScrollData}
    {now lastFetchTime : ℤ}
    (h : (handleScrollStep threshold minDelayMs hasNextPage isFetchingNextPage
      sd now lastFetchTime).1 = true) :
    now - lastFetchTime > minDelayMs ∧
      (handleScrollStep threshold minDelayMs hasNextPage isFetchingNextPage
        sd now lastFetchTime).2 = now := by
  rw [handleScrollStep] at h ⊢
  split at h
  · simp at h
  · split at h
    · rename_i ht
      rw [if_neg ‹¬_›, if_pos ht]
      exact ⟨ht, rfl⟩
    · simp at h

theorem handleScrollStep_not_fired {threshold : ℚ} {minDelayMs : ℤ}
    {hasNextPage isFetchingNextPage : Bool} {sd : ScrollData}
    {now lastFetchTime : ℤ}
    (h : (handleScrollStep threshold minDelayMs hasNextPage isFetchingNextPage
      sd now lastFetchTime).1 = false) :
    (handleScrollStep threshold minDelayMs hasNextPage isFetchingNextPage
      sd now lastFetchTime).2 = lastFetchTime := by
  rw [handleScrollStep] at h ⊢
  split at h
  · rw [if_pos ‹_›]
  · split at h
    · simp at h
    · rw [if_neg ‹¬_›, if_neg ‹¬_›]

theorem runSignals_gt (threshold : ℚ) (minDelayMs : ℤ) (hd : 0 ≤ minDelayMs) :
    ∀ (signals : List ScrollSignal) (last t : ℤ),
      t ∈ runSignals threshold minDelayMs last signals → t - last > minDelayMs := by
  intro signals
  induction signals with
  | nil => intro last t ht; simp [runSignals] at ht
  | cons s rest IH =>
    intro last t ht
    rw [runSignals] at ht
    by_cases hf : (handleScrollStep threshold minDelayMs s.hasNextPage
        s.isFetchingNextPage s.sd s.now last).1 = true
    · rw [if_pos hf] at ht
      obtain ⟨hgt, hupd⟩ := handleScrollStep_fired hf
      rcases List.mem_cons.mp ht with h | h
      · rw [h]; exact hgt
      · rw [hupd] at h
        have := IH s.now t h
        omega
    · rw [Bool.not_eq_true] at hf
      rw [if_neg (by simp [hf]), handleScrollStep_not_fired hf] at ht
      exact IH last t ht

theorem runSignals_pairwise (threshold : ℚ) (minDelayMs : ℤ) (hd : 0 ≤ minDelayMs) :
    ∀ (signals : List ScrollSignal) (last : ℤ),
      (runSignals threshold minDelayMs last signals).Pairwise
        (fun a b => b - a > minDelayMs) := by
  intro signals
  induction signals with
  | nil => intro last; simp [runSignals]
  | cons s rest IH =>
    intro last
    rw [runSignals]
    by_cases hf : (handleScrollStep threshold minDelayMs s.hasNextPage
        s.isFetchingNextPage s.sd s.now last).1 = true
    · rw [if_pos hf]
      obtain ⟨_, hupd⟩ := handleScrollStep_fired hf
      rw [hupd]
      refine List.Pairwise.cons ?_ (IH s.now)
      intro t ht
      exact runSignals_gt threshold minDelayMs hd rest s.now t ht
    · rw [Bool.not_eq_true] at hf
      rw [if_neg (by simp [hf]), handleScrollStep_not_fired hf]
      exact IH last

theorem calculatePositions_getD (items : List GridItem) (dims : Dimensions)
    (i : ℕ) (hi : i < items.length) :
    (calculatePositions items dims).positions.getD i default =
      { column := minColumnIndex (heightsBefore items dims i),
        top := (heightsBefore items dims i).getD
          (minColumnIndex (heightsBefore items dims i)) 0,
        left := (minColumnIndex (heightsBefore items dims i) : ℚ) *
          (dims.columnWidth + GUTTER_SIZE),
        height := renderedHeight dims.columnWidth (items.getD i default) } :=
  packLoop_get dims items (List.replicate dims.columnCount 0) i hi

theorem heightsBefore_length (items : List GridItem) (dims : Dimensions) (i : ℕ) :
    (heightsBefore items dims i).length = dims.columnCount := by
  rw [heightsBefore, packLoop_heights_length]
  exact List.length_replicate _ _

theorem heightsBefore_ne_nil (items : List GridItem) (dims : Dimensions) (i : ℕ)
    (hc : 1 ≤ dims.columnCount) : heightsBefore items dims i ≠ [] := by
  intro h
  have hl := heightsBefore_length items dims i
  rw [h] at hl
  simp at hl
  omega

/-- C1: for every item list and every `Dimensions` with `columnCount ≥ 1`,
`calculatePositions` returns one position per item (index-aligned); each
item's column is, among the accumulated column heights at the moment of its
placement, a column of minimal height, strictly shorter than every column
of lower index (the lowest-index tie-break); each item's `top` is that
column's accumulated height before placement; and `totalHeight` is the
maximum accumulated column height after all items are placed. -/
theorem masonryPacker_spec :
    ∀ (items : List GridItem) (dims : Dimensions), 1 ≤ dims.columnCount →
      (calculatePositions items dims).positions.length = items.length ∧
      (∀ i, i < items.length →
        ((calculatePositions items dims).positions.getD i default).column <
          dims.columnCount ∧
        ((calculatePositions items dims).positions.getD i default).top =
          (heightsBefore items dims i).getD
            ((calculatePositions items dims).positions.getD i default).column 0 ∧
        (∀ j, j < dims.columnCount →
          (heightsBefore items dims i).getD
            ((calculatePositions items dims).positions.getD i default).column 0 ≤
            (heightsBefore items dims i).getD j 0) ∧
        (∀ j, j < ((calculatePositions items dims).positions.getD i default).column →
          (heightsBefore items dims i).getD
            ((calculatePositions items dims).positions.getD i default).column 0 <
            (heightsBefore items dims i).getD j 0)) ∧
      ((calculatePositions items dims).totalHeight ∈
          heightsBefore items dims items.length ∧
        ∀ hgt ∈ heightsBefore items dims items.length,
          hgt ≤ (calculatePositions items dims).totalHeight) := by
  intro items dims hc
  have hfin : heightsBefore items dims items.length =
      (packLoop dims (List.replicate dims.columnCount 0) items).2 := by
    rw [heightsBefore, List.take_length]
  refine ⟨?_, ?_, ?_⟩
  · exact packLoop_length dims items _
  · intro i hi
    rw [calculatePositions_getD items dims i hi]
    refine ⟨?_, rfl, ?_, ?_⟩
    · have h1 := minColumnIndex_lt_length (heightsBefore items dims i)
        (heightsBefore_ne_nil items dims i hc)
      rw [heightsBefore_length] at h1
      exact h1
    · intro j hj
      refine minColumnIndex_le_getD (heightsBefore items dims i) j ?_
      rw [heightsBefore_length]
      exact hj
    · intro j hj
      exact minColumnIndex_strict (heightsBefore items dims i) j hj
  · have hth : (calculatePositions items dims).totalHeight =
        listMax (packLoop dims (List.replicate dims.columnCount 0) items).2 := rfl
    rw [hth, hfin]
    refine ⟨listMax_mem _ ?_, fun hgt hh => le_listMax _ hgt hh⟩
    rw [← hfin]
    exact heightsBefore_ne_nil items dims items.length hc

/-- Witness for C1 at the end-to-end example of spec §8: four items whose
rendered heights are 300, 200, 400, 100 in two columns of width 200. -/
theorem masonryPacker_spec_witness :
    1 ≤ (Dimensions.mk 2 200).columnCount ∧
      (calculatePositions
        [{ width := some 200, height := some 300 },
         { width := some 200, height := some 200 },
         { width := some 200, height := some 400 },
         { width := some 200, height := some 100 }] ⟨2, 200⟩).positions.length = 4 :=
  ⟨by decide,
    (masonryPacker_spec
      [{ width := some 200, height := some 300 },
       { width := some 200, height := some 200 },
       { width := some 200, height := some 400 },
       { width := some 200, height := some 100 }] ⟨2, 200⟩ (by decide)).1⟩

/-- C2: the rendered height recorded in each item's position is
`columnWidth * (intrinsicHeight / intrinsicWidth)` when both intrinsic
dimensions are present (regardless of `aspectRatio`),
`columnWidth / aspectRatio` when they are not both present but
`aspectRatio` is, and `columnWidth` (a square) otherwise. -/
theorem heightDerivation_spec :
    ∀ (items : List GridItem) (dims : Dimensions) (i : ℕ), i < items.length →
      (∀ w h : ℚ, (items.getD i default).width = some w →
        (items.getD i default).height = some h →
        ((calculatePositions items dims).positions.getD i default).height =
          dims.columnWidth * (h / w)) ∧
      (((items.getD i default).width = none ∨ (items.getD i default).height = none) →
        ∀ ar : ℚ, (items.getD i default).aspectRatio = some ar →
        ((calculatePositions items dims).positions.getD i default).height =
          dims.columnWidth / ar) ∧
      (((items.getD i default).width = none ∨ (items.getD i default).height = none) →
        (items.getD i default).aspectRatio = none →
        ((calculatePositions items dims).positions.getD i default).height =
          dims.columnWidth) := by
  intro items dims i hi
  rw [calculatePositions_getD items dims i hi]
  generalize items.getD i default = it
  refine ⟨?_, ?_, ?_⟩
  · intro w h hw hh
    simp [renderedHeight, hw, hh]
  · intro hdisj ar har
    rcases hdisj with hw | hh
    · simp [renderedHeight, hw, har]
    · cases hwc : it.width with
      | none => simp [renderedHeight, hwc, har]
      | some w => simp [renderedHeight, hwc, hh, har]
  · intro hdisj har
    rcases hdisj with hw | hh
    · simp [renderedHeight, hw, har]
    · cases hwc : it.width with
      | none => simp [renderedHeight, hwc, har]
      | some w => simp [renderedHeight, hwc, hh, har]

/-- Witness for C2: an item with intrinsic width 400, height 200 and
`aspectRatio` 1 at column width 400 renders at height 200 (the
width/height-derived value, not the aspect-ratio-derived 400). -/
theorem heightDerivation_spec_witness :
    (0 : ℕ) <
      ([{ width := some 400, height := some 200, aspectRatio := some 1 }] :
        List GridItem).length ∧
    ((calculatePositions
        [{ width := some 400, height := some 200, aspectRatio := some 1 }]
        ⟨2, 400⟩).positions.getD 0 default).height = 400 * (200 / 400) :=
  ⟨by decide,
    (heightDerivation_spec
      [{ width := some 400, height := some 200, aspectRatio := some 1 }]
      ⟨2, 400⟩ 0 (by decide)).1 400 200 rfl rfl⟩

/-- C3 counterexample: the claim fails as stated.  At `containerWidth = 1`
(positive) and `maxColumnCount = 5` a result is returned whose
`columnWidth` is `-1/4`, not strictly positive; and at
`containerWidth = 1000`, `maxColumnCount = 1` the clamp returns
`columnCount = 2`, which is not in `[2, 1]`. -/
theorem dimensionResolver_claim_cex :
    (∃ d : Dimensions, calculateDimensions 1 5 = some d ∧ d.columnWidth ≤ 0) ∧
    (∃ d : Dimensions, calculateDimensions 1000 1 = some d ∧ 1 < d.columnCount) := by
  constructor
  · refine ⟨⟨2, -(1 / 4)⟩, ?_, by norm_num⟩
    norm_num [calculateDimensions, bestColumnCount, columnWidthFor,
      GUTTER_SIZE, MIN_COLUMN_WIDTH]
  · refine ⟨⟨2, 1997 / 4⟩, ?_, by norm_num⟩
    norm_num [calculateDimensions, bestColumnCount, columnWidthFor,
      GUTTER_SIZE, MIN_COLUMN_WIDTH]

/-- C3 (amended): for `containerWidth ≤ 0` the result is absent; for every
`containerWidth > 0` a result is returned whose `columnCount` is at least 2
(the clamp to exactly 2 when no column count ≥ 2 satisfies the minimum
column width), is at most `maxColumnCount` provided `maxColumnCount ≥ 2`,
and whose `columnWidth` is strictly positive provided
`containerWidth > GUTTER_SIZE` (the single inter-column gutter of the
two-column floor). -/
theorem dimensionResolver_amended :
    ∀ (containerWidth : ℚ) (maxColumnCount : ℕ),
      (containerWidth ≤ 0 →
        calculateDimensions containerWidth maxColumnCount = none) ∧
      (0 < containerWidth →
        ∃ d : Dimensions,
          calculateDimensions containerWidth maxColumnCount = some d ∧
          2 ≤ d.columnCount ∧
          (2 ≤ maxColumnCount → d.columnCount ≤ maxColumnCount) ∧
          (GUTTER_SIZE < containerWidth → 0 < d.columnWidth)) := by
  intro cw maxC
  constructor
  · intro h
    rw [calculateDimensions, if_pos h]
  · intro h
    rw [calculateDimensions, if_neg (not_le.mpr h)]
    refine ⟨_, rfl, bestColumnCount_ge_two cw maxC,
      fun h2 => bestColumnCount_le cw maxC h2, ?_⟩
    intro hg
    have hG : GUTTER_SIZE = 3 / 2 := rfl
    rcases bestColumnCount_spec cw maxC with h2 | h2
    · rw [h2, columnWidthFor, hG]
      rw [hG] at hg
      push_cast
      apply div_pos
      · linarith
      · norm_num
    · have h240 : (0 : ℚ) < MIN_COLUMN_WIDTH := by
        rw [show MIN_COLUMN_WIDTH = (240 : ℚ) from rfl]
        norm_num
      exact lt_of_lt_of_le h240 h2

/-- Witness for the amended C3 at `containerWidth = 1000`,
`maxColumnCount = 5`. -/
theorem dimensionResolver_amended_witness :
    (0 : ℚ) < 1000 ∧ GUTTER_SIZE < (1000 : ℚ) ∧
    ∃ d : Dimensions, calculateDimensions 1000 5 = some d ∧
      2 ≤ d.columnCount ∧ d.columnCount ≤ 5 ∧ 0 < d.columnWidth := by
  have hG : GUTTER_SIZE = 3 / 2 := rfl
  refine ⟨by norm_num, by rw [hG]; norm_num, ?_⟩
  obtain ⟨d, hd, h2, hle, hpos⟩ := (dimensionResolver_amended 1000 5).2 (by norm_num)
  exact ⟨d, hd, h2, hle (by norm_num), hpos (by rw [hG]; norm_num)⟩

/-- C4: with index-aligned items and positions, an item appears in
`filterVisibleItems` exactly when its vertical extent overlaps the bounds
(`top < bounds.bottom` and `top + height > bounds.top`); the output
preserves the input order (indices strictly increase); and each output
entry's transform is the serialized translation of `(left, top)`. -/
theorem viewportFilter_spec :
    ∀ (items : List GridItem) (positions : List Position) (bounds : ViewBounds),
      items.length = positions.length →
      (∀ i, i < positions.length →
        (((positions.getD i default).top < bounds.bottom ∧
          (positions.getD i default).top + (positions.getD i default).height >
            bounds.top) ↔
          ∃ v ∈ filterVisibleItems items positions bounds,
            v.index = i ∧ v.item = items.getD i default ∧
            v.pos = positions.getD i default ∧
            v.transform = "translate3d(" ++ toString (positions.getD i default).left ++
              "px," ++ toString (positions.getD i default).top ++ "px,0)")) ∧
      (filterVisibleItems items positions bounds).Pairwise
        (fun a b => a.index < b.index) := by
  intro items positions bounds hlen
  constructor
  · intro i hi
    constructor
    · intro hov
      refine ⟨⟨items.getD i default, positions.getD i default, i,
        mkTransform (positions.getD i default).left (positions.getD i default).top⟩,
        ?_, rfl, rfl, rfl, rfl⟩
      exact (visibleLoop_mem_iff bounds items positions 0 _ hlen).mpr
        ⟨i, hi, by simp, rfl, rfl, rfl, hov⟩
    · rintro ⟨v, hv, hidx, -, -, -⟩
      rcases (visibleLoop_mem_iff bounds items positions 0 v hlen).mp hv with
        ⟨k, hk, hidx', -, -, -, ho⟩
      have hki : k = i := by omega
      rw [hki] at ho
      exact ho
  · exact visibleLoop_pairwise bounds items positions 0

/-- Witness for C4 at the unit test's data: three stacked 100-high items at
tops 0, 500, 2000 under bounds `[0, 700]`; the filtered output's indices
strictly increase. -/
theorem viewportFilter_spec_witness :
    ([({} : GridItem), {}, {}].length =
      [(⟨0, 0, 0, 100⟩ : Position), ⟨0, 500, 0, 100⟩, ⟨0, 2000, 0, 100⟩].length) ∧
    (filterVisibleItems [({} : GridItem), {}, {}]
      [⟨0, 0, 0, 100⟩, ⟨0, 500, 0, 100⟩, ⟨0, 2000, 0, 100⟩]
      ⟨0, 700⟩).Pairwise (fun a b => a.index < b.index) :=
  ⟨rfl, (viewportFilter_spec [({} : GridItem), {}, {}]
    [⟨0, 0, 0, 100⟩, ⟨0, 500, 0, 100⟩, ⟨0, 2000, 0, 100⟩] ⟨0, 700⟩ rfl).2⟩

/-- C5: the change gate is true exactly when an edge moved by strictly more
than the hysteresis (or there are no previous bounds); shifting both edges
by exactly the hysteresis yields false, and by `hysteresis + ε` with
`ε > 0` yields true. -/
theorem changeGate_spec :
    ∀ (p next : ViewBounds) (hyst : ℚ),
      (boundsChangedSignificantly (some p) next hyst = true ↔
        (|next.top - p.top| > hyst ∨ |next.bottom - p.bottom| > hyst)) ∧
      boundsChangedSignificantly none next hyst = true ∧
      (0 ≤ hyst →
        boundsChangedSignificantly (some p)
          ⟨p.top + hyst, p.bottom + hyst⟩ hyst = false) ∧
      (0 ≤ hyst → ∀ ε : ℚ, 0 < ε →
        boundsChangedSignificantly (some p)
          ⟨p.top + (hyst + ε), p.bottom + (hyst + ε)⟩ hyst = true) := by
  intro p next hyst
  refine ⟨?_, rfl, ?_, ?_⟩
  · simp [boundsChangedSignificantly]
  · intro h0
    have e1 : p.top + hyst - p.top = hyst := by ring
    have e2 : p.bottom + hyst - p.bottom = hyst := by ring
    simp [boundsChangedSignificantly, e1, e2, abs_of_nonneg h0]
  · intro h0 ε hε
    have e1 : p.top + (hyst + ε) - p.top = hyst + ε := by ring
    simp only [boundsChangedSignificantly, Bool.or_eq_true, decide_eq_true_eq]
    left
    rw [e1, abs_of_nonneg (by linarith)]
    linarith

/-- Witness for C5 at the unit test's bounds (previous `{100, 800}`,
hysteresis 100): an exact 100-pixel shift is not significant, a 130-pixel
shift is. -/
theorem changeGate_spec_witness :
    (0 : ℚ) ≤ 100 ∧ (0 : ℚ) < 30 ∧
    boundsChangedSignificantly (some ⟨100, 800⟩)
      ⟨100 + (100 : ℚ), 800 + (100 : ℚ)⟩ 100 = false ∧
    boundsChangedSignificantly (some ⟨100, 800⟩)
      ⟨100 + ((100 : ℚ) + 30), 800 + ((100 : ℚ) + 30)⟩ 100 = true :=
  ⟨by norm_num, by norm_num,
    (changeGate_spec ⟨100, 800⟩ ⟨0, 0⟩ 100).2.2.1 (by norm_num),
    (changeGate_spec ⟨100, 800⟩ ⟨0, 0⟩ 100).2.2.2 (by norm_num) 30 (by norm_num)⟩

/-- C6: the scroll bounds resolver returns exactly
`{ top := (scrollOffset − contentOffset) − overscan,
bottom := (scrollOffset − contentOffset) + clientSize + overscan }`; on the
spec's example `(500, 800, 100, 200)` this is `{200, 1400}`; and whenever
`clientSize ≥ 0` and `overscan ≥ 0` the `bottom ≥ top` invariant holds. -/
theorem scrollBounds_spec :
    (∀ scrollTop clientHeight contentOffset overscan : ℚ,
      getScrollPosition scrollTop clientHeight contentOffset overscan =
        ⟨(scrollTop - contentOffset) - overscan,
         (scrollTop - contentOffset) + clientHeight + overscan⟩ ∧
      (0 ≤ clientHeight → 0 ≤ overscan →
        (getScrollPosition scrollTop clientHeight contentOffset overscan).top ≤
          (getScrollPosition scrollTop clientHeight contentOffset overscan).bottom)) ∧
    getScrollPosition 500 800 100 200 = ⟨200, 1400⟩ := by
  constructor
  · intro s cl c o
    refine ⟨rfl, fun h1 h2 => ?_⟩
    show s - c - o ≤ s - c + cl + o
    linarith
  · show (⟨500 - 100 - 200, 500 - 100 + 800 + 200⟩ : ViewBounds) = ⟨200, 1400⟩
    norm_num

/-- Witness for C6 at the spec's example: the invariant `top ≤ bottom`
holds at `(500, 800, 100, 200)`. -/
theorem scrollBounds_spec_witness :
    (0 : ℚ) ≤ 800 ∧ (0 : ℚ) ≤ 200 ∧
    (getScrollPosition 500 800 100 200).top ≤
      (getScrollPosition 500 800 100 200).bottom :=
  ⟨by norm_num, by norm_num,
    (scrollBounds_spec.1 500 800 100 200).2 (by norm_num) (by norm_num)⟩

theorem handleScrollStep_fst (threshold : ℚ) (minDelayMs : ℤ)
    (hasNextPage isFetchingNextPage : Bool) (sd : ScrollData)
    (now lastFetchTime : ℤ) :
    (handleScrollStep threshold minDelayMs hasNextPage isFetchingNextPage sd
        now lastFetchTime).1 =
      (decide (sd.scrollSize - sd.scrollPos - sd.clientSize ≤ threshold) &&
        hasNextPage && !isFetchingNextPage &&
        decide (now - lastFetchTime > minDelayMs)) := by
  rw [handleScrollStep]
  by_cases h1 : sd.scrollSize - sd.scrollPos - sd.clientSize > threshold
  · rw [if_pos (Or.inl h1)]
    have hd : decide (sd.scrollSize - sd.scrollPos - sd.clientSize ≤ threshold) =
        false := decide_eq_false (not_le.mpr h1)
    rw [hd]
    simp
  · have hle : sd.scrollSize - sd.scrollPos - sd.clientSize ≤ threshold :=
      not_lt.mp h1
    cases hasNextPage with
    | false => rw [if_pos (Or.inr (Or.inl rfl))]; simp
    | true =>
      cases isFetchingNextPage with
      | true => rw [if_pos (Or.inr (Or.inr rfl))]; simp
      | false =>
        rw [if_neg (by push_neg; exact ⟨hle, by simp, by simp⟩)]
        by_cases ht : now - lastFetchTime > minDelayMs
        · rw [if_pos ht]
          simp [hle, ht]
        · rw [if_neg ht]
          simp [ht]

/-- C7: on a scroll signal the fetch callback fires exactly when
`distanceFromEnd ≤ threshold`, there is a next page, no fetch is in flight,
and more than `minDelayMs` elapsed since the last fetch; `lastFetchTime` is
stamped to `now` exactly when it fires; consequently, over any sequence of
scroll signals, no two fire times are within `minDelayMs` of each other. -/
theorem paginationTrigger_spec :
    (∀ (threshold : ℚ) (minDelayMs : ℤ) (hasNextPage isFetchingNextPage : Bool)
       (sd : ScrollData) (now lastFetchTime : ℤ),
      ((handleScrollStep threshold minDelayMs hasNextPage isFetchingNextPage sd
          now lastFetchTime).1 = true ↔
        (sd.scrollSize - sd.scrollPos - sd.clientSize ≤ threshold ∧
          hasNextPage = true ∧ isFetchingNextPage = false ∧
          now - lastFetchTime > minDelayMs)) ∧
      (handleScrollStep threshold minDelayMs hasNextPage isFetchingNextPage sd
          now lastFetchTime).2 =
        (if (handleScrollStep threshold minDelayMs hasNextPage isFetchingNextPage
            sd now lastFetchTime).1 = true then now else lastFetchTime)) ∧
    (∀ (threshold : ℚ) (minDelayMs : ℤ) (initialLastFetch : ℤ)
       (signals : List ScrollSignal), 0 ≤ minDelayMs →
      (runSignals threshold minDelayMs initialLastFetch signals).Pairwise
        (fun a b => b - a > minDelayMs)) := by
  refine ⟨?_, ?_⟩
  · intro th d hn f sd now last
    constructor
    · rw [handleScrollStep_fst]
      simp [Bool.and_eq_true, decide_eq_true_eq, Bool.not_eq_true', and_assoc]
    · by_cases hf : (handleScrollStep th d hn f sd now last).1 = true
      · rw [if_pos hf]
        exact (handleScrollStep_fired hf).2
      · rw [if_neg hf]
        exact handleScrollStep_not_fired (Bool.not_eq_true _ |>.mp hf)
  · intro th d last signals hd
    exact runSignals_pairwise th d hd signals last

/-- Witness for C7: three signals at the bottom of the content at times
600, 900 and 1200 with `minDelayMs = 500` fire exactly at 600 and 1200,
and those fire times are more than 500 apart. -/
theorem paginationTrigger_spec_witness :
    (0 : ℤ) ≤ 500 ∧
    runSignals 200 500 0
      [⟨⟨0, 0, 0⟩, true, false, 600⟩, ⟨⟨0, 0, 0⟩, true, false, 900⟩,
       ⟨⟨0, 0, 0⟩, true, false, 1200⟩] = [600, 1200] ∧
    (runSignals 200 500 0
      [⟨⟨0, 0, 0⟩, true, false, 600⟩, ⟨⟨0, 0, 0⟩, true, false, 900⟩,
       ⟨⟨0, 0, 0⟩, true, false, 1200⟩]).Pairwise
        (fun a b => b - a > (500 : ℤ)) :=
  ⟨by norm_num,
   by norm_num [runSignals, handleScrollStep],
   paginationTrigger_spec.2 200 500 0
     [⟨⟨0, 0, 0⟩, true, false, 600⟩, ⟨⟨0, 0, 0⟩, true, false, 900⟩,
      ⟨⟨0, 0, 0⟩, true, false, 1200⟩] (by norm_num)⟩

/-- C8 counterexample: with the missing-container zero-extent scroll
reading, `distanceFromEnd = 0 ≤ threshold`, so the handler does fire a
fetch when `hasNextPage` is set, no fetch is in flight and the minimum
delay has elapsed — refuting "it triggers no fetch on any scroll signal for
every combination of flags, threshold ≥ 0 and elapsed time". -/
theorem missingContainer_claim_cex :
    (0 : ℚ) ≤ 200 ∧
    (handleScrollStep 200 500 true false missingContainerScrollData 1000 0).1 =
      true := by
  refine ⟨by norm_num, ?_⟩
  norm_num [handleScrollStep, missingContainerScrollData]

/-- C8 (amended): when the tracked scroll container is absent the handler
reads the zero-extent scroll state `(0, 0, 0)` and does not error; since
`distanceFromEnd = 0`, the distance gate passes for every
`threshold ≥ 0`, and a fetch fires exactly when `hasNextPage`, not
`isFetchingNextPage`, and more than `minDelayMs` elapsed since the last
fetch. -/
theorem missingContainer_amended :
    ∀ (threshold : ℚ) (minDelayMs : ℤ) (hasNextPage isFetchingNextPage : Bool)
      (now lastFetchTime : ℤ), 0 ≤ threshold →
      (handleScrollStep threshold minDelayMs hasNextPage isFetchingNextPage
        missingContainerScrollData now lastFetchTime).1 =
        (hasNextPage && !isFetchingNextPage &&
          decide (now - lastFetchTime > minDelayMs)) := by
  intro th d hn f now last hth
  rw [handleScrollStep_fst]
  have h0 : missingContainerScrollData.scrollSize -
      missingContainerScrollData.scrollPos -
      missingContainerScrollData.clientSize = 0 := by
    norm_num [missingContainerScrollData]
  rw [h0, decide_eq_true hth]
  simp

/-- Witness for the amended C8 at threshold 200: the zero-extent reading
fires exactly when the non-distance gates pass. -/
theorem missingContainer_amended_witness :
    (0 : ℚ) ≤ 200 ∧
    (handleScrollStep 200 500 true false missingContainerScrollData 1000 0).1 =
      (true && !false && decide ((1000 : ℤ) - 0 > 500)) :=
  ⟨by norm_num, missingContainer_amended 200 500 true false 1000 0 (by norm_num)⟩

/-- C9: `filterValidItems` keeps exactly the present entries carrying a
non-missing id, as an order-preserving sublist of the input, and it is
idempotent. -/
theorem validFilter_spec :
    ∀ (xs : List (Option GridItem)),
      List.Sublist ((filterValidItems xs).map some) xs ∧
      (∀ it : GridItem, it ∈ filterValidItems xs ↔
        (some it ∈ xs ∧ it.id.isSome = true)) ∧
      filterValidItems ((filterValidItems xs).map some) = filterValidItems xs := by
  intro xs
  exact ⟨filterValidItems_sublist xs, mem_filterValidItems xs,
    filterValidItems_map_some _ (filterValidItems_all_valid xs)⟩

/-- C10: the `showLoadMoreButton` flag returned by the infinite-scroll hook
equals `hasNextPage && !isFetchingNextPage`, independently of the hook's
other inputs. -/
theorem showLoadMoreButton_spec :
    ∀ (enabled : Bool) (threshold : ℚ) (minDelayMs : ℤ)
      (hasNextPage isFetchingNextPage : Bool) (sd : ScrollData)
      (now lastFetchTime : ℤ),
      (showLoadMoreButton enabled threshold minDelayMs hasNextPage
          isFetchingNextPage sd now lastFetchTime = true ↔
        (hasNextPage = true ∧ isFetchingNextPage = false)) ∧
      showLoadMoreButton enabled threshold minDelayMs hasNextPage
          isFetchingNextPage sd now lastFetchTime =
        showLoadMoreButton true 200 500 hasNextPage isFetchingNextPage
          ⟨0, 0, 0⟩ 0 0 := by
  intro enabled th d hn f sd now last
  refine ⟨?_, rfl⟩
  cases hn <;> cases f <;> simp [showLoadMoreButton]

end DreamGrid
